import Mathlib

/-! Verification development for the TTL-cached anime scraping API
(`src/animeapiv5fasttry.py`).  The file shallowly embeds the program's data
model and operations — the `CacheManager` TTL cache, `fetch_with_cache`, the
regex-based stream-URL extraction (`find_urls_in_text`, `find_js_file_urls`,
iframe discovery), the classification in `get_streaming_links`, and the
concurrent per-season fan-out of `get_anime_info` — and proves the spec's
claims about them.  Network and HTML-parsing libraries (`requests`,
`BeautifulSoup`) are modelled as explicit function parameters; time is an
explicit integer parameter; concurrency is modelled by an explicit completion
order, a permutation of the submitted task positions. -/

/-- Python truthiness of an optional string: `None` and `""` are falsy,
every other string is truthy. -/
def pyTruthyStr : Option String → Bool
  | none => false
  | some s => decide (s ≠ "")

/-- Lookup in a Python-`dict`-like association list. -/
def dictGet (d : List (String × α)) (k : String) : Option α :=
  (d.find? (fun p => p.1 == k)).map Prod.snd

/-- `d[k] = v` on a Python-`dict`-like association list: overwrite or insert.
(Python keeps the overwritten key's position; the claims only depend on lookup
semantics, so insertion at the front is an equivalent model.) -/
def dictSet (d : List (String × α)) (k : String) (v : α) : List (String × α) :=
  (k, v) :: d.filter (fun p => !(p.1 == k))

/-- `del d[k]` on a Python-`dict`-like association list. -/
def dictDel (d : List (String × α)) (k : String) : List (String × α) :=
  d.filter (fun p => !(p.1 == k))

theorem dictGet_dictSet_self (d : List (String × α)) (k : String) (v : α) :
    dictGet (dictSet d k v) k = some v := by
  simp [dictGet, dictSet, List.find?]

theorem dictGet_dictDel_self (d : List (String × α)) (k : String) :
    dictGet (dictDel d k) k = none := by
  have h : (dictDel d k).find? (fun p => p.1 == k) = none := by
    rw [List.find?_eq_none]
    intro x hx
    have hmem := (List.mem_filter.mp hx).2
    simp only [Bool.not_eq_true'] at hmem
    simp [hmem]
  simp [dictGet, h]

/-- The `CacheManager` state of the source: `cache` maps keys to
`(value, timestamp)` pairs and `ttl` is the time-to-live.  Time
(`time.time()` in the source) is modelled as an integer passed explicitly. -/
structure CacheManager (α : Type) where
  cache : List (String × α × Int)
  ttl : Int

/-- `CacheManager.get`: under the lock, look the key up; return the value if
`now - timestamp < ttl`, otherwise delete the entry and return absent.  The
mutation performed inside the critical section is returned as the new state. -/
def CacheManager.get (c : CacheManager α) (now : Int) (key : String) :
    Option α × CacheManager α :=
  match dictGet c.cache key with
  | some (v, ts) =>
      if now - ts < c.ttl then (some v, c)
      else (none, { c with cache := dictDel c.cache key })
  | none => (none, c)

/-- `CacheManager.set`: under the lock, unconditionally store
`(value, timestamp)` for the key. -/
def CacheManager.set (c : CacheManager α) (now : Int) (key : String) (v : α) :
    CacheManager α :=
  { c with cache := dictSet c.cache key (v, now) }

/-- `CacheManager.clear`: under the lock, drop every entry. -/
def CacheManager.clear (c : CacheManager α) : CacheManager α :=
  { c with cache := [] }

/-- C1: for every key `k` and value `v`, `set(k,v)` at time `t` followed by
`get(k)` strictly before `ttl` seconds have elapsed returns `v`; once `ttl`
or more seconds have elapsed, `get(k)` returns absent and the expired entry
is removed within the same critical section (the returned state no longer
contains `k`), so no read observes an expired value. -/
theorem cache_ttl_set_get (α : Type) (c : CacheManager α) (k : String) (v : α)
    (t now : Int) :
    (now - t < c.ttl → (((c.set t k v).get now k).1 = some v)) ∧
    (c.ttl ≤ now - t →
      (((c.set t k v).get now k).1 = none) ∧
      dictGet (((c.set t k v).get now k).2).cache k = none) := by
  constructor
  · intro h
    simp [CacheManager.get, CacheManager.set, dictGet_dictSet_self, h]
  · intro h
    have hlt : ¬ (now - t < c.ttl) := not_lt.mpr h
    constructor
    · simp [CacheManager.get, CacheManager.set, dictGet_dictSet_self, hlt]
    · simp [CacheManager.get, CacheManager.set, dictGet_dictSet_self, hlt,
        dictGet_dictDel_self]

/-- Witness for `cache_ttl_set_get`: a concrete fresh read and a concrete
expired read on a TTL-300 cache. -/
theorem cache_ttl_set_get_witness :
    ((((CacheManager.mk [] 300 : CacheManager String).set 0 "k" "v").get 10 "k").1
        = some "v") ∧
    ((((CacheManager.mk [] 300 : CacheManager String).set 0 "k" "v").get 300 "k").1
        = none) :=
  ⟨(cache_ttl_set_get String ⟨[], 300⟩ "k" "v" 0 10).1 (by decide),
   ((cache_ttl_set_get String ⟨[], 300⟩ "k" "v" 0 300).2 (by decide)).1⟩

/-- Models `hashlib.md5(url.encode()).hexdigest()`: the stable fingerprint of
a URL used as the cache key.  The digest is modelled as an injective encoding
of the URL (md5 restricted to the collision-free inputs the program uses). -/
def md5_hex (url : String) : String := "md5:" ++ url

/-- `fetch_with_cache`: with `use_cache`, probe the TTL cache under the URL's
fingerprint; the source's `if cached_data:` means a cached falsy body (`""`)
is treated as a miss.  On a miss, issue the network request (`net` models
`session.get` + `raise_for_status` + gzip handling + permissive utf-8
decoding: it returns the decoded body or a request error, which the source
re-raises with an `Error fetching URL:` message) and store the body when
caching is enabled.  The final `Nat` counts network requests issued. -/
def fetch_with_cache (net : String → Except String String)
    (c : CacheManager String) (now : Int) (url : String) (use_cache : Bool) :
    Except String String × CacheManager String × Nat :=
  let fetchNet : CacheManager String →
      Except String String × CacheManager String × Nat := fun c1 =>
    match net url with
    | .error e => (.error ("Error fetching URL: " ++ e), c1, 1)
    | .ok body =>
        if use_cache then (.ok body, c1.set now (md5_hex url) body, 1)
        else (.ok body, c1, 1)
  if use_cache then
    match c.get now (md5_hex url) with
    | (some s, c1) => if s = "" then fetchNet c1 else (.ok s, c1, 0)
    | (none, c1) => fetchNet c1
  else fetchNet c

theorem CacheManager.get_ttl (c : CacheManager α) (now : Int) (k : String) :
    ((c.get now k).2).ttl = c.ttl := by
  unfold CacheManager.get
  cases h : dictGet c.cache k with
  | none => rfl
  | some p =>
    obtain ⟨v, ts⟩ := p
    by_cases hlt : now - ts < c.ttl <;> simp [hlt]

/-- A cache (TTL 300) that holds the empty body `""`, stored at time 0, for
the fingerprint of URL `"u"`. -/
def emptyBodyCache : CacheManager String := ⟨[(md5_hex "u", ("", 0))], 300⟩

/-- C5 counterexample: at time 10 the cache holds an unexpired stored body
(`""`) for `"u"`'s fingerprint, yet `fetch_with_cache` with `use_cache`
issues a network request (count 1, not 0) and returns the network body
`"X"` rather than the cached body: the source's `if cached_data:` treats a
cached empty body as a miss. -/
theorem fetch_with_cache_empty_hit_refetches :
    (emptyBodyCache.get 10 (md5_hex "u")).1 = some "" ∧
    (fetch_with_cache (fun _ => .ok "X") emptyBodyCache 10 "u" true).2.2 = 1 ∧
    (fetch_with_cache (fun _ => .ok "X") emptyBodyCache 10 "u" true).1 = .ok "X" :=
  ⟨rfl, rfl, rfl⟩

/-- C5 (amended): if the cache holds an unexpired *non-empty* body for the
URL's fingerprint, `fetch_with_cache` with `use_cache` returns that cached
body and performs no network fetch; and after a cached miss-fetch that
stored a non-empty body, a second cached fetch of the same URL within the
TTL returns the identical body with no network request — even against a
different network oracle, showing the second call does not depend on the
network at all. -/
theorem fetch_with_cache_hit_no_network
    (net net2 : String → Except String String) (c : CacheManager String)
    (now now2 : Int) (url b : String) :
    ((c.get now (md5_hex url)).1 = some b → b ≠ "" →
      fetch_with_cache net c now url true
        = (.ok b, (c.get now (md5_hex url)).2, 0)) ∧
    (pyTruthyStr (c.get now (md5_hex url)).1 = false → net url = .ok b →
      b ≠ "" → now2 - now < c.ttl →
      (fetch_with_cache net c now url true).1 = .ok b ∧
      (fetch_with_cache net c now url true).2.2 = 1 ∧
      fetch_with_cache net2 (fetch_with_cache net c now url true).2.1 now2 url true
        = (.ok b, (fetch_with_cache net c now url true).2.1, 0)) := by
  rcases hget : c.get now (md5_hex url) with ⟨o, c1⟩
  have httl : c1.ttl = c.ttl := by
    have := CacheManager.get_ttl c now (md5_hex url)
    rw [hget] at this
    exact this
  constructor
  · intro h1 h2
    have h1' : o = some b := h1
    subst h1'
    simp [fetch_with_cache, hget, h2]
  · intro hmiss hnet hb hfresh
    have hmiss' : pyTruthyStr o = false := hmiss
    have hcall1 : fetch_with_cache net c now url true
        = (.ok b, c1.set now (md5_hex url) b, 1) := by
      cases o with
      | none => simp [fetch_with_cache, hget, hnet]
      | some s =>
        have hs : s = "" := by
          by_contra hs
          simp [pyTruthyStr, hs] at hmiss'
        subst hs
        simp [fetch_with_cache, hget, hnet]
    refine ⟨by rw [hcall1], by rw [hcall1], ?_⟩
    rw [hcall1]
    have hget2 : (c1.set now (md5_hex url) b).get now2 (md5_hex url)
        = (some b, c1.set now (md5_hex url) b) := by
      unfold CacheManager.get
      have : dictGet (c1.set now (md5_hex url) b).cache (md5_hex url)
          = some (b, now) := dictGet_dictSet_self _ _ _
      rw [this]
      have : now2 - now < (c1.set now (md5_hex url) b).ttl := by
        show now2 - now < c1.ttl
        rw [httl]; exact hfresh
      simp [CacheManager.set] at this ⊢
      omega
    simp [fetch_with_cache, hget2, hb]

/-- Witness for `fetch_with_cache_hit_no_network` at concrete inputs: a
concrete warm-cache hit, and a concrete cold fetch followed by a cached
re-fetch against a network oracle that would return a different body. -/
theorem fetch_with_cache_hit_no_network_witness :
    (fetch_with_cache (fun _ => .ok "other")
        (⟨[(md5_hex "u", ("B", 0))], 300⟩ : CacheManager String) 10 "u" true
      = (.ok "B", ⟨[(md5_hex "u", ("B", 0))], 300⟩, 0)) ∧
    (fetch_with_cache (fun _ => .error "down")
        ((fetch_with_cache (fun _ => .ok "B")
            (⟨[], 300⟩ : CacheManager String) 0 "u" true).2.1) 10 "u" true).1
      = .ok "B" := by
  constructor
  · exact (fetch_with_cache_hit_no_network (fun _ => .ok "other")
      (fun _ => .ok "other") ⟨[(md5_hex "u", ("B", 0))], 300⟩ 10 10 "u" "B").1
      (by decide) (by decide)
  · have h := (fetch_with_cache_hit_no_network (fun _ => .ok "B")
      (fun _ => .error "down") (⟨[], 300⟩ : CacheManager String) 0 10 "u" "B").2
      (by decide) rfl (by decide) (by decide)
    rw [h.2.2]

/-- The upstream origin (`BASE_URL`) of the source. -/
def BASE_URL : String := "https://animesalt.cc"

/-- Python `str.startswith` on the character-list view. -/
def pyStartsWithL (l pat : List Char) : Bool := decide (l.take pat.length = pat)

/-- Python `str.startswith`. -/
def pyStartsWith (s pat : String) : Bool := pyStartsWithL s.data pat.data

/-- Python `str.endswith`. -/
def pyEndsWith (s pat : String) : Bool :=
  decide (s.data.drop (s.data.length - pat.data.length) = pat.data)

/-- Scheme characters after the leading letter (`urllib.parse`):
letters, digits, `+`, `-`, `.`. -/
def isSchemeChar (c : Char) : Bool :=
  c.isAlphanum || c == '+' || c == '-' || c == '.'

/-- Whether a reference already carries a URL scheme
(`letter schemechar* :`), the test `urllib.parse` uses to decide that a
reference is absolute. -/
def hasScheme (s : String) : Bool :=
  match s.data with
  | [] => false
  | c :: rest => c.isAlpha && pyStartsWithL (rest.dropWhile isSchemeChar) [':']

/-- Split `scheme://rest` at the first `://` occurrence. -/
def splitScheme : List Char → Option (List Char × List Char)
  | [] => none
  | c :: rest =>
      if c = ':' ∧ rest.take 2 = ['/', '/'] then some ([], rest.drop 2)
      else (splitScheme rest).map (fun p => (c :: p.1, p.2))

/-- `scheme://host` of an absolute base (the `urljoin` model's resolution
target for root-relative references). -/
def originOf (u : String) : String :=
  match splitScheme u.data with
  | some (sch, rest) => ⟨sch ++ (':' :: '/' :: '/' :: rest.takeWhile (· ≠ '/'))⟩
  | none => u

/-- The base URL up to and including the final `/` of its path (the
`urljoin` model's resolution target for relative references);
`scheme://host/` when the path has no `/`. -/
def dirOf (u : String) : String :=
  match splitScheme u.data with
  | some (sch, rest) =>
      let host := rest.takeWhile (· ≠ '/')
      let path := rest.drop host.length
      let pdir := (path.reverse.dropWhile (· ≠ '/')).reverse
      ⟨sch ++ (':' :: '/' :: '/' :: host) ++ (if pdir.isEmpty then ['/'] else pdir)⟩
  | none => u

/-- The scheme of the base (characters before the first `:`), inherited by
scheme-relative (`//…`) references. -/
def schemeOf (u : String) : String := ⟨u.data.takeWhile (· ≠ ':')⟩

/-- Models `urllib.parse.urljoin` for the cases the program exercises: an
empty reference returns the base; a reference that already carries a scheme
is returned unchanged; `//…` inherits the base's scheme; `/…` resolves
against the base's origin; anything else against the base's directory. -/
def urljoin (base url : String) : String :=
  if url = "" then base
  else if hasScheme url then url
  else if pyStartsWith url "//" then schemeOf base ++ ":" ++ url
  else if pyStartsWith url "/" then originOf base ++ url
  else dirOf base ++ url

/-- Python `str.replace(pat, rep)`: replace all non-overlapping occurrences,
left to right.  `fuel` bounds the scan and is instantiated with the string's
length (every step consumes at least one character). -/
def replaceAllAux (pat rep : List Char) : Nat → List Char → List Char
  | _, [] => []
  | 0, l => l
  | fuel + 1, c :: rest =>
      if pat ≠ [] ∧ (c :: rest).take pat.length = pat then
        rep ++ replaceAllAux pat rep fuel ((c :: rest).drop pat.length)
      else c :: replaceAllAux pat rep fuel rest

/-- Python `str.replace`. -/
def pyReplace (s pat rep : String) : String :=
  ⟨replaceAllAux pat.data rep.data s.data.length s.data⟩

/-- `remove_base_url`: make a URL relative by removing the base URL
(`url.replace(BASE_URL, "")`, guarded by a `startswith` check). -/
def remove_base_url (url : String) : String :=
  if pyStartsWith url BASE_URL then pyReplace url BASE_URL "" else url

/-- `add_base_url`: make a relative URL absolute against `BASE_URL`. -/
def add_base_url (url : String) : String :=
  if !(pyStartsWith url "http") then
    if pyStartsWith url "/" then BASE_URL ++ url else BASE_URL ++ "/" ++ url
  else url

/-- Python `\s` on the program's (ASCII) inputs. -/
def pyIsSpace (c : Char) : Bool :=
  c == ' ' || c == '\t' || c == '\n' || c == '\r' || c == '\x0b' || c == '\x0c'

/-- The character class shared by both URL patterns of `find_urls_in_text`:
anything but whitespace, quotes, angle brackets and backticks (`\x60`). -/
def urlChar (c : Char) : Bool :=
  !(pyIsSpace c || c == '"' || c == '\'' || c == '<' || c == '>' || c == '\x60')

/-- Maximal runs of URL characters.  The URL patterns start with `http` and
match only URL characters, so a match never crosses a delimiter and
`re.findall` over the whole text is the in-order concatenation of the
per-run matches. -/
def urlWordsAux : List Char → List Char → List (List Char)
  | acc, [] => if acc.isEmpty then [] else [acc.reverse]
  | acc, c :: rest =>
      if urlChar c then urlWordsAux (c :: acc) rest
      else if acc.isEmpty then urlWordsAux [] rest
      else acc.reverse :: urlWordsAux [] rest

/-- The maximal URL-character runs of a text, in order. -/
def urlWords (l : List Char) : List (List Char) := urlWordsAux [] l

/-- Case-insensitive test against an already-lowercased pattern
(`re.IGNORECASE`). -/
def startsWithCI (low : List Char) (l : List Char) : Bool :=
  decide ((l.take low.length).map Char.toLower = low)

/-- Python substring containment (`pat in s`) on character lists. -/
def strContains : List Char → List Char → Bool
  | [], pat => decide (pat = [])
  | l@(_ :: rest), pat => pyStartsWithL l pat || strContains rest pat

/-- Case-insensitive substring test against an already-lowercased pattern. -/
def containsCI (low : List Char) (l : List Char) : Bool :=
  strContains (l.map Char.toLower) low

/-- `re.findall` of the manifest pattern `(https?://[^…]+\.m3u8[^…]*)`
within one URL-character run: at the leftmost `http(s)://` whose tail
contains `.m3u8` after at least one character, the greedy trailing `[^…]*`
extends the match to the end of the run, so the match is the whole remaining
run; otherwise the scan advances one character. -/
def m3u8FindInWord : List Char → List (List Char)
  | [] => []
  | c :: rest =>
      if startsWithCI "https://".data (c :: rest) &&
          containsCI ".m3u8".data ((c :: rest).drop 9) then
        [c :: rest]
      else if startsWithCI "http://".data (c :: rest) &&
          containsCI ".m3u8".data ((c :: rest).drop 8) then
        [c :: rest]
      else m3u8FindInWord rest

/-- The video-extension alternatives of the direct-media pattern, in the
source's alternation order. -/
def videoExts : List (List Char) :=
  ["mp4".data, "webm".data, "ogg".data, "mov".data, "mkv".data, "ts".data]

/-- Match `\.(?:mp4|webm|ogg|mov|mkv|ts)` (case-insensitively) at the head
of `l`, returning the matched length including the dot. -/
def extAt (l : List Char) : Option Nat :=
  (videoExts.find? (fun e => startsWithCI ('.' :: e) l)).map (fun e => e.length + 1)

/-- The greedy `[^…]+` of the video pattern backtracks from the longest
stretch: the largest split `a ≥ 1` of the tail at which an extension
matches, with the matched length. -/
def lastExtSplit (tail : List Char) : Option (Nat × Nat) :=
  ((List.range tail.length).filterMap
      (fun a => if a = 0 then none
        else (extAt (tail.drop a)).map (fun k => (a, k)))).getLast?

/-- `re.findall` of the direct-media pattern
`(https?://[^…]+\.(?:mp4|…|ts)(?:\?[^…]*)?)` within one URL-character run:
the greedy `[^…]+` backtracks to the last extension occurrence; an optional
`?query` then extends the match to the end of the run; scanning resumes
after the match.  `fuel` is instantiated with the run's length (every step
consumes at least one character). -/
def videoFindInWord : Nat → List Char → List (List Char)
  | 0, _ => []
  | _, [] => []
  | fuel + 1, c :: rest =>
      if startsWithCI "https://".data (c :: rest) then
        match lastExtSplit ((c :: rest).drop 8) with
        | none => videoFindInWord fuel rest
        | some (a, klen) =>
            if pyStartsWithL ((c :: rest).drop (8 + a + klen)) ['?'] then
              [c :: rest]
            else
              (c :: rest).take (8 + a + klen) ::
                videoFindInWord fuel ((c :: rest).drop (8 + a + klen))
      else if startsWithCI "http://".data (c :: rest) then
        match lastExtSplit ((c :: rest).drop 7) with
        | none => videoFindInWord fuel rest
        | some (a, klen) =>
            if pyStartsWithL ((c :: rest).drop (7 + a + klen)) ['?'] then
              [c :: rest]
            else
              (c :: rest).take (7 + a + klen) ::
                videoFindInWord fuel ((c :: rest).drop (7 + a + klen))
      else videoFindInWord fuel rest

/-- `find_urls_in_text`: run both `re.findall`s over the text, resolve every
match against the given base URL, and deduplicate.  `list(set(…))` has
unspecified order in Python; it is modelled as in-order deduplication —
membership and cardinality, which the callers consume, are unaffected. -/
def find_urls_in_text (text base_url : String) : List String :=
  let ws := urlWords text.data
  let m3u8s := (ws.map m3u8FindInWord).flatten
  let vids := (ws.map (fun w => videoFindInWord w.length w)).flatten
  ((m3u8s ++ vids).map (fun l => urljoin base_url ⟨l⟩)).dedup

/-- Match `src\s*=\s*["'](.*?)["']` (case-insensitively) at the head of `l`:
the consumed length and the captured reference.  The lazy capture takes the
shortest stretch ending at either kind of quote and cannot cross a newline
(`.` does not match newline). -/
def srcMatchAt (l : List Char) : Option (Nat × List Char) :=
  if startsWithCI "src".data l then
    let l1 := l.drop 3
    let sp1 := (l1.takeWhile pyIsSpace).length
    match l1.drop sp1 with
    | '=' :: l3 =>
        let sp2 := (l3.takeWhile pyIsSpace).length
        match l3.drop sp2 with
        | q :: l5 =>
            if q = '"' ∨ q = '\'' then
              let cap := l5.takeWhile (fun c => !(c == '"' || c == '\'' || c == '\n'))
              match l5.drop cap.length with
              | q2 :: _ =>
                  if q2 = '\n' then none
                  else some (3 + sp1 + 1 + sp2 + 1 + cap.length + 1, cap)
              | [] => none
            else none
        | [] => none
    | _ => none
  else none

/-- The greedy `[^>]+` of the tag patterns backtracks from the longest run
of non-`>` characters down to length 1, to the last position at which the
`src` part matches. -/
def srcSearchBack (tail : List Char) : Nat → Option (Nat × Nat × List Char)
  | 0 => none
  | a + 1 =>
      match srcMatchAt (tail.drop (a + 1)) with
      | some p => some (a + 1, p.1, p.2)
      | none => srcSearchBack tail a

/-- `re.findall` for `<tag[^>]+src\s*=\s*["'](.*?)["']` (IGNORECASE), the
shape of both the iframe and the script-source patterns: at each occurrence
of the tag opener, the greedy `[^>]+` backtracks to the last matching `src`
part; the captured reference is collected and scanning resumes after the
whole match.  `fuel` is instantiated with the text's length (every step
consumes at least one character). -/
def tagSrcFindAll (tagLow : List Char) : Nat → List Char → List (List Char)
  | 0, _ => []
  | _, [] => []
  | fuel + 1, c :: rest =>
      let l := c :: rest
      if startsWithCI tagLow l then
        let tail := l.drop tagLow.length
        let run := (tail.takeWhile (fun c => !(c == '>'))).length
        match srcSearchBack tail run with
        | some (a, consumed, cap) =>
            cap :: tagSrcFindAll tagLow fuel (tail.drop (a + consumed))
        | none => tagSrcFindAll tagLow fuel rest
      else tagSrcFindAll tagLow fuel rest

/-- `find_js_file_urls`: script-tag sources filtered to script references
(`url.endswith('.js') or 'javascript' in url`), made absolute against the
page URL, deduplicated. -/
def find_js_file_urls (html base_url : String) : List String :=
  let js_urls := (tagSrcFindAll "<script".data html.data.length html.data).map
    (fun l => (⟨l⟩ : String))
  ((js_urls.filter (fun u =>
      pyEndsWith u ".js" || strContains u.data "javascript".data)).map
    (fun u => urljoin base_url u)).dedup

/-- `scan_js_file`: fetch one JS file with its own session and scan its text
for stream URLs; any request failure yields the empty contribution
(`except: return []`). -/
def scan_js_file (jsnet : String → Except String String) (js_url : String) :
    List String :=
  match jsnet js_url with
  | .ok body => find_urls_in_text body js_url
  | .error _ => []

/-- The non-stream asset extensions excluded before classification. -/
def nonStreamExts : List (List Char) :=
  [".js".data, ".css".data, ".png".data, ".jpg".data, ".gif".data,
   ".svg".data, ".ico".data]

/-- The filter of `get_streaming_links`: any excluded extension occurring
anywhere in the lowercased URL. -/
def isNonStreamUrl (u : String) : Bool :=
  nonStreamExts.any (fun e => strContains (u.data.map Char.toLower) e)

/-- Manifest classification: `'.m3u8' in url.lower()`. -/
def isM3u8Link (u : String) : Bool :=
  strContains (u.data.map Char.toLower) ".m3u8".data

/-- Direct-media classification: any of `.mp4`, `.webm`, `.mov`, `.ts` in
the lowercased URL (note: a narrower list than the extraction pattern's). -/
def isVideoLink (u : String) : Bool :=
  [".mp4".data, ".webm".data, ".mov".data, ".ts".data].any
    (fun e => strContains (u.data.map Char.toLower) e)

/-- The `/api/stream` result record. -/
structure StreamResult where
  episode_url : String
  m3u8_links : List String
  video_links : List String
  iframes : List String
  total_streams : Nat
  deriving DecidableEq

/-- Path normalisation of the stream endpoint: paths not already under
`movies/` or `episode/` are treated as episode paths. -/
def stream_final_path (url_path : String) : String :=
  if pyStartsWith url_path "movies/" || pyStartsWith url_path "episode/" then
    url_path
  else "episode/" ++ url_path

/-- The absolute page URL the stream endpoint fetches and resolves against. -/
def stream_source_url (url_path : String) : String :=
  add_base_url (stream_final_path url_path)

/-- The filtered stream-URL candidates of a fetched page: the page-text
matches plus the scanned contributions of the first five discovered scripts,
deduplicated, minus non-stream asset URLs (`all_streams` then
`filtered_streams` in the source). -/
def stream_page_links (url_path html : String)
    (jsnet : String → Except String String) : List String :=
  ((find_urls_in_text html (stream_source_url url_path) ++
      (((find_js_file_urls html (stream_source_url url_path)).take 5).map
        (scan_js_file jsnet)).flatten).dedup).filter
    (fun u => !(isNonStreamUrl u))

/-- The deduplicated absolute iframe sources of the fetched page. -/
def stream_iframes (url_path html : String) : List String :=
  ((tagSrcFindAll "<iframe".data html.data.length html.data).map
      (fun l => urljoin (stream_source_url url_path) ⟨l⟩)).dedup

/-- `get_streaming_links`, the uncached core computation of the `/api/stream`
endpoint: normalise the path, fetch the page (`use_cache=False`, so the fetch
is exactly the network branch of `fetch_with_cache`), scan the page and up to
five linked scripts for stream URLs, collect iframe sources, deduplicate,
exclude non-stream assets, classify, and count.  `net` models the page fetch
and `jsnet` the per-thread script fetches; the completion order of the script
fan-out only affects an ordering that `list(set(…))` erases, so script
contributions are merged in submission order. -/
def get_streaming_links_core (url_path : String)
    (net jsnet : String → Except String String) : Except String StreamResult :=
  match net (stream_source_url url_path) with
  | .error e => .error ("Error fetching URL: " ++ e)
  | .ok html =>
      .ok { episode_url := url_path
            m3u8_links := (stream_page_links url_path html jsnet).filter isM3u8Link
            video_links := (stream_page_links url_path html jsnet).filter isVideoLink
            iframes := stream_iframes url_path html
            total_streams :=
              ((stream_page_links url_path html jsnet).filter isM3u8Link).length +
              ((stream_page_links url_path html jsnet).filter isVideoLink).length +
              (stream_iframes url_path html).length }

theorem Char.eq_of_toNat_eq {c d : Char} (h : c.toNat = d.toNat) : c = d :=
  Char.eq_of_val_eq (UInt32.ext h)

theorem Char.toNat_toLower (c : Char) :
    (Char.toLower c).toNat = c.toNat ∨
    ((Char.toLower c).toNat = c.toNat + 32 ∧ 65 ≤ c.toNat ∧ c.toNat ≤ 90) := by
  unfold Char.toLower
  by_cases h : 65 ≤ c.toNat ∧ c.toNat ≤ 90
  · right
    refine ⟨?_, h.1, h.2⟩
    rw [if_pos h]
    have hv : (c.toNat + 32).isValidChar := Or.inl (by omega)
    rw [Char.ofNat, dif_pos hv]
    simp [Char.ofNatAux, Char.toNat, UInt32.toNat]
  · left
    rw [if_neg h]

/-- The preimages of a lowercase letter under `Char.toLower` are the letter
itself and its uppercase form. -/
theorem eq_or_upper_of_toLower {c d u : Char} (hd : d.toNat = u.toNat + 32)
    (hu1 : 65 ≤ u.toNat) (hu2 : u.toNat ≤ 90) (h : Char.toLower c = d) :
    c = d ∨ c = u := by
  have hval := congrArg Char.toNat h
  rcases Char.toNat_toLower c with h1 | ⟨h2, h3, h4⟩
  · exact Or.inl (Char.eq_of_toNat_eq (by omega))
  · exact Or.inr (Char.eq_of_toNat_eq (by omega))

/-- A character below the lowercase-letter range is its own unique
`Char.toLower` preimage. -/
theorem eq_of_toLower_of_nonletter {c d : Char} (hd : d.toNat < 97)
    (h : Char.toLower c = d) : c = d := by
  have hval := congrArg Char.toNat h
  rcases Char.toNat_toLower c with h1 | ⟨h2, h3, h4⟩
  · exact Char.eq_of_toNat_eq (by omega)
  · omega

theorem take_map_toLower_cons {l : List Char} {d : Char} {ds : List Char}
    {n : Nat} (h : (l.take (n + 1)).map Char.toLower = d :: ds) :
    ∃ c cs, l = c :: cs ∧ Char.toLower c = d ∧
      (cs.take n).map Char.toLower = ds := by
  cases l with
  | nil => simp at h
  | cons a b =>
    rw [List.take_succ_cons, List.map_cons] at h
    injection h with h1 h2
    exact ⟨a, b, rfl, h1, h2⟩

/-- A string whose first characters case-insensitively spell `https://`
carries a URL scheme. -/
theorem hasScheme_of_https_ci (l : List Char)
    (h : startsWithCI "https://".data l = true) : hasScheme ⟨l⟩ = true := by
  rw [startsWithCI, decide_eq_true_eq] at h
  have h8 : (l.take 8).map Char.toLower
      = 'h' :: 't' :: 't' :: 'p' :: 's' :: ':' :: '/' :: '/' :: [] := h
  obtain ⟨c0, l0, rfl, e0, h8⟩ := take_map_toLower_cons (n := 7) h8
  obtain ⟨c1, l1, rfl, e1, h8⟩ := take_map_toLower_cons (n := 6) h8
  obtain ⟨c2, l2, rfl, e2, h8⟩ := take_map_toLower_cons (n := 5) h8
  obtain ⟨c3, l3, rfl, e3, h8⟩ := take_map_toLower_cons (n := 4) h8
  obtain ⟨c4, l4, rfl, e4, h8⟩ := take_map_toLower_cons (n := 3) h8
  obtain ⟨c5, l5, rfl, e5, _⟩ := take_map_toLower_cons (n := 2) h8
  have a0 : c0.isAlpha = true := by
    rcases eq_or_upper_of_toLower (u := 'H') (by decide) (by decide) (by decide) e0
      with rfl | rfl <;> decide
  have s1 : isSchemeChar c1 = true := by
    rcases eq_or_upper_of_toLower (u := 'T') (by decide) (by decide) (by decide) e1
      with rfl | rfl <;> decide
  have s2 : isSchemeChar c2 = true := by
    rcases eq_or_upper_of_toLower (u := 'T') (by decide) (by decide) (by decide) e2
      with rfl | rfl <;> decide
  have s3 : isSchemeChar c3 = true := by
    rcases eq_or_upper_of_toLower (u := 'P') (by decide) (by decide) (by decide) e3
      with rfl | rfl <;> decide
  have s4 : isSchemeChar c4 = true := by
    rcases eq_or_upper_of_toLower (u := 'S') (by decide) (by decide) (by decide) e4
      with rfl | rfl <;> decide
  have e5' : c5 = ':' := eq_of_toLower_of_nonletter (by decide) e5
  subst e5'
  have sc : isSchemeChar ':' = false := by decide
  simp [hasScheme, a0, List.dropWhile, s1, s2, s3, s4, sc, pyStartsWithL]

/-- A string whose first characters case-insensitively spell `http://`
carries a URL scheme. -/
theorem hasScheme_of_http_ci (l : List Char)
    (h : startsWithCI "http://".data l = true) : hasScheme ⟨l⟩ = true := by
  rw [startsWithCI, decide_eq_true_eq] at h
  have h7 : (l.take 7).map Char.toLower
      = 'h' :: 't' :: 't' :: 'p' :: ':' :: '/' :: '/' :: [] := h
  obtain ⟨c0, l0, rfl, e0, h7⟩ := take_map_toLower_cons (n := 6) h7
  obtain ⟨c1, l1, rfl, e1, h7⟩ := take_map_toLower_cons (n := 5) h7
  obtain ⟨c2, l2, rfl, e2, h7⟩ := take_map_toLower_cons (n := 4) h7
  obtain ⟨c3, l3, rfl, e3, h7⟩ := take_map_toLower_cons (n := 3) h7
  obtain ⟨c4, l4, rfl, e4, _⟩ := take_map_toLower_cons (n := 2) h7
  have a0 : c0.isAlpha = true := by
    rcases eq_or_upper_of_toLower (u := 'H') (by decide) (by decide) (by decide) e0
      with rfl | rfl <;> decide
  have s1 : isSchemeChar c1 = true := by
    rcases eq_or_upper_of_toLower (u := 'T') (by decide) (by decide) (by decide) e1
      with rfl | rfl <;> decide
  have s2 : isSchemeChar c2 = true := by
    rcases eq_or_upper_of_toLower (u := 'T') (by decide) (by decide) (by decide) e2
      with rfl | rfl <;> decide
  have s3 : isSchemeChar c3 = true := by
    rcases eq_or_upper_of_toLower (u := 'P') (by decide) (by decide) (by decide) e3
      with rfl | rfl <;> decide
  have e4' : c4 = ':' := eq_of_toLower_of_nonletter (by decide) e4
  subst e4'
  have sc : isSchemeChar ':' = false := by decide
  simp [hasScheme, a0, List.dropWhile, s1, s2, s3, sc, pyStartsWithL]

theorem urljoin_of_hasScheme (base u : String) (h : hasScheme u = true) :
    urljoin base u = u := by
  have hne : u ≠ "" := by
    intro h0
    rw [h0] at h
    exact absurd h (by decide)
  rw [urljoin, if_neg hne, if_pos h]

theorem startsWithCI_take {pat l : List Char} (h : startsWithCI pat l = true)
    {n : Nat} (hn : pat.length ≤ n) : startsWithCI pat (l.take n) = true := by
  rw [startsWithCI, decide_eq_true_eq] at h ⊢
  rw [List.take_take, min_eq_left hn, h]

theorem m3u8Find_starts {w m : List Char} (hm : m ∈ m3u8FindInWord w) :
    startsWithCI "https://".data m = true ∨
    startsWithCI "http://".data m = true := by
  induction w with
  | nil => simp [m3u8FindInWord] at hm
  | cons c rest ih =>
    simp only [m3u8FindInWord] at hm
    split at hm
    · rename_i hcond
      rw [List.mem_singleton] at hm
      subst hm
      rw [Bool.and_eq_true] at hcond
      exact Or.inl hcond.1
    · split at hm
      · rename_i hcond
        rw [List.mem_singleton] at hm
        subst hm
        rw [Bool.and_eq_true] at hcond
        exact Or.inr hcond.1
      · exact ih hm

theorem videoFind_starts {fuel : Nat} {w m : List Char}
    (hm : m ∈ videoFindInWord fuel w) :
    startsWithCI "https://".data m = true ∨
    startsWithCI "http://".data m = true := by
  induction fuel generalizing w with
  | zero => simp [videoFindInWord] at hm
  | succ fuel ih =>
    cases w with
    | nil => simp [videoFindInWord] at hm
    | cons c rest =>
      simp only [videoFindInWord] at hm
      split at hm
      · rename_i hs
        split at hm
        · exact ih hm
        · rename_i a klen _
          split at hm
          · rw [List.mem_singleton] at hm
            subst hm
            exact Or.inl hs
          · rcases List.mem_cons.mp hm with rfl | hm'
            · exact Or.inl (startsWithCI_take hs (by simp; omega))
            · exact ih hm'
      · split at hm
        · rename_i hs
          split at hm
          · exact ih hm
          · rename_i a klen _
            split at hm
            · rw [List.mem_singleton] at hm
              subst hm
              exact Or.inr hs
            · rcases List.mem_cons.mp hm with rfl | hm'
              · exact Or.inr (startsWithCI_take hs (by simp; omega))
              · exact ih hm'
        · exact ih hm

/-- Every URL produced by `find_urls_in_text` carries a scheme (the regex
matches begin with `http(s)://`, so `urljoin` returns them unchanged). -/
theorem find_urls_in_text_absolute {text base u : String}
    (hu : u ∈ find_urls_in_text text base) : hasScheme u = true := by
  unfold find_urls_in_text at hu
  rw [List.mem_dedup, List.mem_map] at hu
  obtain ⟨m, hm, rfl⟩ := hu
  have hms : hasScheme (⟨m⟩ : String) = true := by
    rcases List.mem_append.mp hm with h | h
    · obtain ⟨ms, hms, hmm⟩ := List.mem_flatten.mp h
      obtain ⟨w, _, rfl⟩ := List.mem_map.mp hms
      rcases m3u8Find_starts hmm with h' | h'
      · exact hasScheme_of_https_ci _ h'
      · exact hasScheme_of_http_ci _ h'
    · obtain ⟨ms, hms, hmm⟩ := List.mem_flatten.mp h
      obtain ⟨w, _, rfl⟩ := List.mem_map.mp hms
      rcases videoFind_starts hmm with h' | h'
      · exact hasScheme_of_https_ci _ h'
      · exact hasScheme_of_http_ci _ h'
  rw [urljoin_of_hasScheme _ _ hms]
  exact hms

theorem data_head_of_startsWith {p : String} {c : Char} {pat : List Char}
    (h : pyStartsWithL p.data (c :: pat) = true) :
    ∃ rest, p.data = c :: rest := by
  rw [pyStartsWithL, decide_eq_true_eq] at h
  cases hd : p.data with
  | nil => rw [hd] at h; simp at h
  | cons a b =>
    rw [hd, List.length_cons, List.take_succ_cons] at h
    injection h with h1 _
    exact ⟨b, by rw [h1]⟩

/-- The page URL of the stream endpoint is always rooted at the upstream
origin: the normalised path never begins with `http`, so `add_base_url`
prefixes the origin. -/
theorem stream_source_url_shape (p : String) :
    ∃ t, (stream_source_url p).data = "https://".data ++ t := by
  unfold stream_source_url stream_final_path add_base_url
  by_cases h : (pyStartsWith p "movies/" || pyStartsWith p "episode/") = true
  · rw [if_pos h]
    have hhead : ∃ c rest, p.data = c :: rest ∧ (c = 'm' ∨ c = 'e') := by
      rcases Bool.or_eq_true_iff.mp h with h' | h'
      · obtain ⟨rest, hr⟩ := @data_head_of_startsWith p 'm' "ovies/".data h'
        exact ⟨'m', rest, hr, Or.inl rfl⟩
      · obtain ⟨rest, hr⟩ := @data_head_of_startsWith p 'e' "pisode/".data h'
        exact ⟨'e', rest, hr, Or.inr rfl⟩
    obtain ⟨c, rest, hp, hc⟩ := hhead
    have hhttp : pyStartsWith p "http" = false := by
      rw [pyStartsWith, pyStartsWithL, hp]
      rcases hc with rfl | rfl <;> simp
    have hslash : pyStartsWith p "/" = false := by
      rw [pyStartsWith, pyStartsWithL, hp]
      rcases hc with rfl | rfl <;> simp
    rw [hhttp]
    simp only [Bool.not_false, if_true, hslash, if_false, Bool.false_eq_true]
    refine ⟨"animesalt.cc/".data ++ p.data, ?_⟩
    show (BASE_URL ++ "/" ++ p).data = _
    rfl
  · rw [if_neg h]
    have hhttp : pyStartsWith ("episode/" ++ p) "http" = false := by
      have hd : ("episode/" ++ p).data = 'e' :: ("pisode/".data ++ p.data) := rfl
      rw [pyStartsWith, pyStartsWithL, hd]
      simp
    have hslash : pyStartsWith ("episode/" ++ p) "/" = false := by
      have hd : ("episode/" ++ p).data = 'e' :: ("pisode/".data ++ p.data) := rfl
      rw [pyStartsWith, pyStartsWithL, hd]
      simp
    rw [hhttp]
    simp only [Bool.not_false, if_true, hslash, if_false, Bool.false_eq_true]
    refine ⟨"animesalt.cc/episode/".data ++ p.data, ?_⟩
    show (BASE_URL ++ "/" ++ ("episode/" ++ p)).data = _
    rfl

/-- Resolving any reference against an origin-rooted base yields a URL with
a scheme, whichever branch of the `urljoin` model fires. -/
theorem urljoin_abs (base : String) (t : List Char)
    (hb : base.data = "https://".data ++ t) (u : String) :
    hasScheme (urljoin base u) = true := by
  have hbase : base = ⟨"https://".data ++ t⟩ := by
    cases base
    simp only at hb
    exact congrArg String.mk hb
  subst hbase
  by_cases h0 : u = ""
  · rw [urljoin, if_pos h0]
    rfl
  · by_cases h1 : hasScheme u = true
    · rw [urljoin_of_hasScheme _ _ h1]
      exact h1
    · rw [urljoin, if_neg h0, if_neg (by simpa using h1)]
      by_cases h2 : pyStartsWith u "//" = true
      · rw [if_pos h2]
        rfl
      · rw [if_neg (by simpa using h2)]
        by_cases h3 : pyStartsWith u "/" = true
        · rw [if_pos h3]
          rfl
        · rw [if_neg (by simpa using h3)]
          rfl

/-- C6: in every successful stream response, `total_streams` equals the size
of `m3u8_links` plus the size of `video_links` plus the size of `iframes`;
extracted URLs that survive filtering but fall into no bucket (for example
`.ogg` or `.mkv` files, which the classification lists omit) contribute
nothing to it. -/
theorem total_streams_eq_sum (url_path : String)
    (net jsnet : String → Except String String) (r : StreamResult)
    (hok : get_streaming_links_core url_path net jsnet = .ok r) :
    r.total_streams =
      r.m3u8_links.length + r.video_links.length + r.iframes.length := by
  unfold get_streaming_links_core at hok
  cases hnet : net (stream_source_url url_path) with
  | error e =>
    rw [hnet] at hok
    exact absurd hok (by simp)
  | ok html =>
    rw [hnet] at hok
    simp only [Except.ok.injEq] at hok
    subst hok
    rfl

/-- The text blob of the URL-classification fixture. -/
def classifyBlob : String :=
  "Links: https://x.test/a.m3u8 https://x.test/b.mp4 https://x.test/c.css"

/-- A network oracle serving the classification fixture for every URL. -/
def classifyNet : String → Except String String := fun _ => .ok classifyBlob

/-- A network oracle on which every request fails. -/
def offlineNet : String → Except String String := fun _ => .error "offline"

/-- The stream result computed from the classification fixture. -/
def classifyResult : StreamResult :=
  { episode_url := "ep1"
    m3u8_links := ["https://x.test/a.m3u8"]
    video_links := ["https://x.test/b.mp4"]
    iframes := []
    total_streams := 2 }

/-- Witness for `total_streams_eq_sum` at a concrete stream request. -/
theorem total_streams_eq_sum_witness :
    classifyResult.total_streams = classifyResult.m3u8_links.length +
      classifyResult.video_links.length + classifyResult.iframes.length :=
  total_streams_eq_sum "ep1" classifyNet offlineNet classifyResult rfl

/-- C8: on a page containing exactly the URLs `https://x.test/a.m3u8`,
`https://x.test/b.mp4` and `https://x.test/c.css`, the extraction, filtering
and classification of the stream endpoint put the `.m3u8` URL in the
manifest bucket and the `.mp4` URL in the video bucket, and exclude the
`.css` URL from both. -/
theorem classify_fixture_buckets :
    get_streaming_links_core "ep1" classifyNet offlineNet
      = .ok classifyResult ∧
    "https://x.test/a.m3u8" ∈ classifyResult.m3u8_links ∧
    "https://x.test/b.mp4" ∈ classifyResult.video_links ∧
    "https://x.test/c.css" ∉ classifyResult.m3u8_links ∧
    "https://x.test/c.css" ∉ classifyResult.video_links := by
  exact ⟨rfl, by decide, by decide, by decide, by decide⟩

/-- A page whose only iframe source is itself an `.m3u8` URL, so the same
URL is both extracted from the page text and collected as an iframe. -/
def overlapHtml : String := "<iframe src=\"https://x.test/a.m3u8\"></iframe>"

/-- A network oracle serving `overlapHtml` for every URL. -/
def overlapNet : String → Except String String := fun _ => .ok overlapHtml

/-- The stream result computed from `overlapHtml`. -/
def overlapResult : StreamResult :=
  { episode_url := "ep1"
    m3u8_links := ["https://x.test/a.m3u8"]
    video_links := []
    iframes := ["https://x.test/a.m3u8"]
    total_streams := 2 }

/-- C2 counterexample: on a concrete page whose iframe source is an `.m3u8`
URL, the same URL appears in both `m3u8_links` and `iframes`, so the three
collections of the stream result are not pairwise disjoint (the
classification is substring-based and the iframe collection is built
independently of the stream buckets). -/
theorem stream_sets_not_disjoint :
    get_streaming_links_core "ep1" overlapNet offlineNet = .ok overlapResult ∧
    "https://x.test/a.m3u8" ∈ overlapResult.m3u8_links ∧
    "https://x.test/a.m3u8" ∈ overlapResult.iframes :=
  ⟨rfl, by decide, by decide⟩

/-- C2 (amended): in every successful stream result, every URL in
`m3u8_links`, `video_links` and `iframes` is absolute (it carries a URL
scheme); the three collections, however, need not be pairwise disjoint —
the substring classification can put one URL in both stream buckets, and an
iframe source can also appear as a stream URL. -/
theorem stream_urls_absolute (url_path : String)
    (net jsnet : String → Except String String) (r : StreamResult)
    (hok : get_streaming_links_core url_path net jsnet = .ok r) :
    ∀ u : String,
      (u ∈ r.m3u8_links ∨ u ∈ r.video_links ∨ u ∈ r.iframes) →
      hasScheme u = true := by
  have hpage : ∀ (html : String) (u : String),
      u ∈ stream_page_links url_path html jsnet → hasScheme u = true := by
    intro html u hu
    unfold stream_page_links at hu
    rw [List.mem_filter] at hu
    have hu' := hu.1
    rw [List.mem_dedup] at hu'
    rcases List.mem_append.mp hu' with h | h
    · exact find_urls_in_text_absolute h
    · obtain ⟨contrib, hc, hm⟩ := List.mem_flatten.mp h
      obtain ⟨ju, _, rfl⟩ := List.mem_map.mp hc
      unfold scan_js_file at hm
      cases hjs : jsnet ju with
      | ok body =>
        rw [hjs] at hm
        exact find_urls_in_text_absolute hm
      | error e =>
        rw [hjs] at hm
        simp at hm
  unfold get_streaming_links_core at hok
  cases hnet : net (stream_source_url url_path) with
  | error e =>
    rw [hnet] at hok
    exact absurd hok (by simp)
  | ok html =>
    rw [hnet] at hok
    simp only [Except.ok.injEq] at hok
    subst hok
    intro u hu
    rcases hu with hu | hu | hu
    · exact hpage html u (List.mem_filter.mp hu).1
    · exact hpage html u (List.mem_filter.mp hu).1
    · simp only [stream_iframes, List.mem_dedup] at hu
      obtain ⟨cap, _, rfl⟩ := List.mem_map.mp hu
      obtain ⟨t, ht⟩ := stream_source_url_shape url_path
      exact urljoin_abs _ t ht _

/-- Witness for `stream_urls_absolute`: the URL shared by the manifest and
iframe collections of the `overlapHtml` request is absolute. -/
theorem stream_urls_absolute_witness :
    hasScheme "https://x.test/a.m3u8" = true :=
  stream_urls_absolute "ep1" overlapNet offlineNet overlapResult rfl
    "https://x.test/a.m3u8" (Or.inl (by decide))

/-- A `season-btn` anchor as the extractor sees it: its `data-post` and
`data-season` attribute values (`none` when absent). -/
structure SeasonButton where
  post : Option String
  season : Option String
  deriving DecidableEq

/-- The guard of the fan-out comprehension
(`if button.get('data-post') and button.get('data-season')`): Python
truthiness, so a missing or empty attribute excludes the button. -/
def buttonValid (b : SeasonButton) : Bool :=
  pyTruthyStr b.post && pyTruthyStr b.season

/-- Python `enumerate` starting at `i`. -/
def pyEnumFrom : Nat → List α → List (Nat × α)
  | _, [] => []
  | i, a :: l => (i, a) :: pyEnumFrom (i + 1) l

/-- Python `enumerate`. -/
def pyEnum (l : List α) : List (Nat × α) := pyEnumFrom 0 l

/-- The submitted fan-out tasks with their `enumerate` indices: only valid
buttons get futures, but each future is keyed by its button's index among
*all* buttons (`future_to_season` in the source). -/
def validTasks (buttons : List SeasonButton) : List (Nat × SeasonButton) :=
  (pyEnum buttons).filter (fun p => buttonValid p.2)

/-- An `li` episode item as the extractor sees it: the `lnk-blk` href, the
`num-epi` stripped text, the `entry-title` stripped text, and — when a
`post-thumbnail` div with an `img` exists — the image's
`data-src`/`src` attributes. -/
structure EpisodeItem where
  link : Option String
  num : Option String
  title : Option String
  thumb : Option (Option String × Option String)
  deriving DecidableEq

/-- An `EpisodeRecord` of a detail response. -/
structure Episode where
  episode_number : String
  title : String
  url : String
  image_url : String
  deriving DecidableEq

/-- Python `a or default` over an optional string (truthiness: `None` and
`""` fall through to the default). -/
def pyOrDefault (a : Option String) (d : String) : String :=
  match a with
  | some s => if s = "" then d else s
  | none => d

/-- The per-item episode processing of `get_anime_info`: items without a
truthy `lnk-blk` href are skipped; a root-relative href is prefixed with
the origin (`BASE_URL + ep_url.lstrip('/')`, as in the source), then
re-relativised via `remove_base_url`; a missing number or title resolves to
`"N/A"`, and the image prefers `data-src` over `src` over `"N/A"`. -/
def processEpisodeItem (item : EpisodeItem) : Option Episode :=
  match item.link with
  | none => none
  | some href =>
      if href = "" then none
      else
        some { episode_number := item.num.getD "N/A"
               title := item.title.getD "N/A"
               url := remove_base_url
                 (if pyStartsWith href "/" then
                   BASE_URL ++ ⟨href.data.dropWhile (· = '/')⟩
                  else href)
               image_url :=
                 match item.thumb with
                 | some (ds, src) => pyOrDefault ds (pyOrDefault src "N/A")
                 | none => "N/A" }

/-- The parsed detail page as the extractor contract sees it: the `h1`
text, the `og:image` content, the language names, and the `season-btn`
buttons in document order (each `Option` is `none` when the element or
attribute is absent). -/
structure DetailPage where
  title : Option String
  ogImage : Option String
  languages : List String
  season_buttons : List SeasonButton

/-- `get_episodes_for_season`: fetch the per-season episode fragment via
the admin-ajax call (with its own session per thread) and parse its `li`
items; any request failure returns the empty list.  `net` maps
`(post_id, season_num)` to the response text; `parseItems` models
`BeautifulSoup(...).find_all('li')`. -/
def get_episodes_for_season (net : String → String → Except String String)
    (parseItems : String → List EpisodeItem) (post_id season_num : String) :
    List EpisodeItem :=
  match net post_id season_num with
  | .ok body => parseItems body
  | .error _ => []

/-- The `as_completed` loop of the season fan-out: process the futures in
completion order `order` (each entry a position into the submitted task
list); each result is written into `season_results` at the button's
`enumerate` index.  `season_results[index] = …` raises `IndexError`
(`list assignment index out of range`) when the index falls outside the
list, and the inner `except` handler re-raises it by performing the same
assignment.  (Positions outside the task list do not occur in a completion
order and are skipped.) -/
def writeSeasonResults (valid : List (Nat × SeasonButton))
    (taskVal : SeasonButton → List EpisodeItem) :
    List Nat → List (Option (List EpisodeItem)) →
    Except String (List (Option (List EpisodeItem)))
  | [], acc => .ok acc
  | p :: rest, acc =>
      match valid[p]? with
      | none => writeSeasonResults valid taskVal rest acc
      | some (i, b) =>
          if i < acc.length then
            writeSeasonResults valid taskVal rest (acc.set i (some (taskVal b)))
          else .error "list assignment index out of range"

/-- The merge of the season fan-out: slots in submission order, falsy
(unwritten or empty) slots contributing nothing
(`for episodes in season_results: if episodes: ….extend(episodes)`). -/
def mergeSeasonResults (rs : List (Option (List EpisodeItem))) :
    List EpisodeItem :=
  (rs.map (fun o => o.getD [])).flatten

/-- The season fan-out of `get_anime_info`: submit one task per valid
button, size `season_results` by the number of submitted tasks, process
completions in `order`, and merge. -/
def seasonAggregate (buttons : List SeasonButton)
    (taskVal : SeasonButton → List EpisodeItem) (order : List Nat) :
    Except String (List EpisodeItem) :=
  match writeSeasonResults (validTasks buttons) taskVal order
      (List.replicate (validTasks buttons).length none) with
  | .error e => .error e
  | .ok results => .ok (mergeSeasonResults results)

/-- The HTTP error outcomes of the detail endpoint: a 404 or a 500 with the
exception text. -/
inductive ApiError where
  | notFound (msg : String)
  | serverError (msg : String)
  deriving DecidableEq

/-- The detail response record. -/
structure AnimeData where
  title : String
  url : String
  image_url : String
  languages : List String
  total_episodes : Nat
  episodes : List Episode
  deriving DecidableEq

/-- `get_anime_info`, the uncached core computation of the `/api/anime`
endpoint: fetch and parse the detail page (`page` models `fetch_with_cache`
plus `BeautifulSoup`), answer 404 when no season buttons exist, fan the
valid seasons out with completion order `order`, process the merged items,
and assemble the response; any exception (fetch failure, `IndexError` in
the fan-out) reaches the endpoint's `except` and is served as a 500 with
the exception text.  `get_anime_info_page` is the post-fetch computation;
`get_anime_info_core` adds the fetch layer. -/
def get_anime_info_page (url_path : String) (pg : DetailPage)
    (net : String → String → Except String String)
    (parseItems : String → List EpisodeItem) (order : List Nat) :
    Except ApiError AnimeData :=
  if pg.season_buttons.isEmpty then
    .error (.notFound "No season buttons found")
  else
    match seasonAggregate pg.season_buttons
        (fun b => get_episodes_for_season net parseItems
          (b.post.getD "") (b.season.getD "")) order with
    | .error e => .error (.serverError e)
    | .ok items =>
        .ok { title := pg.title.getD "N/A"
              url := url_path
              image_url := pyOrDefault pg.ogImage "N/A"
              languages := pg.languages
              total_episodes := (items.filterMap processEpisodeItem).length
              episodes := items.filterMap processEpisodeItem }

/-- The fetch layer of the detail endpoint: a failed page fetch becomes a
500 with the raised message. -/
def get_anime_info_core (url_path : String)
    (page : Except String DetailPage)
    (net : String → String → Except String String)
    (parseItems : String → List EpisodeItem) (order : List Nat) :
    Except ApiError AnimeData :=
  match page with
  | .error e => .error (.serverError ("Error fetching URL: " ++ e))
  | .ok pg => get_anime_info_page url_path pg net parseItems order

theorem pyEnumFrom_getElem? (l : List α) (k p : Nat) :
    (pyEnumFrom k l)[p]? = (l[p]?).map (fun b => (k + p, b)) := by
  induction l generalizing k p with
  | nil => simp [pyEnumFrom]
  | cons a t ih =>
    cases p with
    | zero => simp [pyEnumFrom]
    | succ p =>
      simp only [pyEnumFrom, List.getElem?_cons_succ, ih (k + 1) p]
      cases t[p]? with
      | none => rfl
      | some b => simp [Nat.add_assoc, Nat.add_comm 1 p]

theorem pyEnumFrom_length (l : List α) (k : Nat) :
    (pyEnumFrom k l).length = l.length := by
  induction l generalizing k with
  | nil => rfl
  | cons a t ih => simp [pyEnumFrom, ih]

theorem pyEnumFrom_mem_iff {l : List α} {k i : Nat} {b : α} :
    (i, b) ∈ pyEnumFrom k l ↔ ∃ j, l[j]? = some b ∧ i = k + j := by
  induction l generalizing k with
  | nil => simp [pyEnumFrom]
  | cons a t ih =>
    simp only [pyEnumFrom, List.mem_cons, ih]
    constructor
    · rintro (h | ⟨j, hj, rfl⟩)
      · injection h with h1 h2
        exact ⟨0, by simp [h2], by omega⟩
      · exact ⟨j + 1, by simpa using hj, by omega⟩
    · rintro ⟨j, hj, rfl⟩
      cases j with
      | zero =>
        simp only [List.getElem?_cons_zero, Option.some.injEq] at hj
        exact Or.inl (by rw [hj]; rfl)
      | succ j =>
        simp only [List.getElem?_cons_succ] at hj
        exact Or.inr ⟨j, hj, by omega⟩

theorem pyEnumFrom_map_fst (l : List α) (k : Nat) :
    (pyEnumFrom k l).map Prod.fst = List.range' k l.length := by
  induction l generalizing k with
  | nil => rfl
  | cons a t ih => simp [pyEnumFrom, List.range'_succ, ih]

/-- When every button is valid, every button is submitted, keyed by its own
position. -/
theorem validTasks_of_all_valid {buttons : List SeasonButton}
    (h : ∀ b ∈ buttons, buttonValid b = true) :
    validTasks buttons = pyEnum buttons := by
  unfold validTasks
  rw [List.filter_eq_self]
  intro p hp
  rcases p with ⟨i, b⟩
  obtain ⟨j, hj, _⟩ := pyEnumFrom_mem_iff.mp hp
  exact h b (List.getElem?_mem hj)

theorem validTasks_indices_nodup (buttons : List SeasonButton) :
    ((validTasks buttons).map Prod.fst).Nodup := by
  have hsub : ((validTasks buttons).map Prod.fst).Sublist
      ((pyEnum buttons).map Prod.fst) :=
    List.Sublist.map Prod.fst (List.filter_sublist _)
  have : ((pyEnum buttons).map Prod.fst).Nodup := by
    rw [pyEnum, pyEnumFrom_map_fst]
    exact List.nodup_range' 0 buttons.length
  exact this.sublist hsub

/-- Write-phase characterisation when every button is submitted under its
own index: processing any duplicate-free, in-range completion order writes
each processed slot with its own task's result and leaves the others. -/
theorem writeSeasonResults_all_valid (buttons : List SeasonButton)
    (tv : SeasonButton → List EpisodeItem) :
    ∀ (order : List Nat) (acc : List (Option (List EpisodeItem))),
    order.Nodup → (∀ p ∈ order, p < buttons.length) →
    acc.length = buttons.length →
    ∃ res, writeSeasonResults (pyEnum buttons) tv order acc = .ok res ∧
      res.length = buttons.length ∧
      ∀ j : Nat, res[j]? =
        if j ∈ order then (buttons[j]?).map (fun b => some (tv b))
        else acc[j]? := by
  intro order
  induction order with
  | nil =>
    intro acc _ _ hacc
    exact ⟨acc, rfl, hacc, by simp⟩
  | cons p rest ih =>
    intro acc hnd hlt hacc
    have hp : p < buttons.length := hlt p (List.mem_cons_self p rest)
    have hbp : ∃ bp, buttons[p]? = some bp := by
      rw [List.getElem?_eq_getElem hp]
      exact ⟨_, rfl⟩
    obtain ⟨bp, hbp⟩ := hbp
    have hvp : (pyEnum buttons)[p]? = some (p, bp) := by
      rw [pyEnum, pyEnumFrom_getElem?, hbp]
      simp
    have hplen : p < acc.length := by omega
    obtain ⟨res, hrun, hlen, hget⟩ := ih (acc.set p (some (tv bp)))
      (List.Nodup.of_cons hnd) (fun q hq => hlt q (List.mem_cons_of_mem p hq))
      (by simp [hacc])
    refine ⟨res, ?_, hlen, ?_⟩
    · rw [writeSeasonResults, hvp]
      simp only [hplen, if_pos]
      exact hrun
    · intro j
      rcases List.nodup_cons.mp hnd with ⟨hpnot, _⟩
      by_cases hj : j ∈ rest
      · rw [hget j, if_pos hj, if_pos (List.mem_cons_of_mem p hj)]
      · by_cases hjp : j = p
        · subst hjp
          rw [hget j, if_neg hj, if_pos (List.mem_cons_self j rest),
            List.getElem?_set_eq hplen, hbp]
          rfl
        · rw [hget j, if_neg hj,
            if_neg (by simp [hjp, hj]),
            List.getElem?_set_ne (by omega)]

/-- If some processed future's slot index falls outside `season_results`,
the fan-out raises `IndexError`. -/
theorem writeSeasonResults_error (valid : List (Nat × SeasonButton))
    (tv : SeasonButton → List EpisodeItem) :
    ∀ (order : List Nat) (acc : List (Option (List EpisodeItem))),
    (∃ p0 ∈ order, ∃ i b, valid[p0]? = some (i, b) ∧ acc.length ≤ i) →
    writeSeasonResults valid tv order acc
      = .error "list assignment index out of range" := by
  intro order
  induction order with
  | nil =>
    intro acc hbad
    obtain ⟨p0, hp0, _⟩ := hbad
    exact absurd hp0 (List.not_mem_nil p0)
  | cons p rest ih =>
    intro acc hbad
    rw [writeSeasonResults]
    cases hv : valid[p]? with
    | none =>
      obtain ⟨p0, hp0, i, b, hvp0, hi⟩ := hbad
      rcases List.mem_cons.mp hp0 with rfl | hp0'
      · rw [hv] at hvp0
        exact absurd hvp0 (by simp)
      · exact ih acc ⟨p0, hp0', i, b, hvp0, hi⟩
    | some ib =>
      rcases ib with ⟨i, b⟩
      by_cases hil : i < acc.length
      · simp only [hil, if_pos]
        obtain ⟨p0, hp0, i0, b0, hvp0, hi0⟩ := hbad
        rcases List.mem_cons.mp hp0 with rfl | hp0'
        · rw [hv] at hvp0
          injection hvp0 with h1
          injection h1 with h2 h3
          omega
        · exact ih _ ⟨p0, hp0', i0, b0, hvp0, by simpa using hi0⟩
      · simp [hil]

/-- With every button valid and the completion order a permutation of the
submitted futures, the season fan-out succeeds and merges the per-season
results in submission order — the completion order does not appear in the
result. -/
theorem seasonAggregate_eq_flatten (buttons : List SeasonButton)
    (tv : SeasonButton → List EpisodeItem) (order : List Nat)
    (hvalid : ∀ b ∈ buttons, buttonValid b = true)
    (hperm : order.Perm (List.range buttons.length)) :
    seasonAggregate buttons tv order = .ok ((buttons.map tv).flatten) := by
  have hval : validTasks buttons = pyEnum buttons := validTasks_of_all_valid hvalid
  have hnd : order.Nodup := hperm.nodup_iff.mpr (List.nodup_range _)
  have hlt : ∀ p ∈ order, p < buttons.length := by
    intro p hp
    exact List.mem_range.mp (hperm.mem_iff.mp hp)
  obtain ⟨res, hrun, hreslen, hget⟩ := writeSeasonResults_all_valid buttons tv
    order (List.replicate buttons.length none) hnd hlt (by simp)
  have hres : res = buttons.map (fun b => some (tv b)) := by
    rw [List.ext_getElem?_iff]
    intro j
    rw [hget j, List.getElem?_map]
    by_cases hj : j < buttons.length
    · rw [if_pos (by rw [hperm.mem_iff]; exact List.mem_range.mpr hj)]
    · rw [if_neg (by rw [hperm.mem_iff, List.mem_range]; omega)]
      rw [List.getElem?_eq_none (by simpa using (by omega : buttons.length ≤ j)),
        List.getElem?_eq_none (by simpa using (by omega : buttons.length ≤ j))]
      rfl
  unfold seasonAggregate
  rw [hval]
  have hlen : (pyEnum buttons).length = buttons.length := by
    rw [pyEnum, pyEnumFrom_length]
  rw [hlen, hrun]
  simp only [hres, mergeSeasonResults, List.map_map]
  have hcomp : ((fun o => o.getD ([] : List EpisodeItem)) ∘ fun b => some (tv b))
      = tv := by
    funext b
    rfl
  rw [hcomp]

/-- C3: for a detail page whose season buttons each carry a post identifier
and a season number, the response's merged episode list concatenates the
per-season results in the original submission order of the buttons, for
every completion order of the concurrent fetches — the completion order
does not occur in the result. -/
theorem detail_episodes_submission_order (url_path : String) (pg : DetailPage)
    (net : String → String → Except String String)
    (parseItems : String → List EpisodeItem) (order : List Nat)
    (hvalid : ∀ b ∈ pg.season_buttons, buttonValid b = true)
    (hne : pg.season_buttons ≠ [])
    (hperm : order.Perm (List.range pg.season_buttons.length)) :
    get_anime_info_core url_path (.ok pg) net parseItems order
      = .ok { title := pg.title.getD "N/A"
              url := url_path
              image_url := pyOrDefault pg.ogImage "N/A"
              languages := pg.languages
              total_episodes := (((pg.season_buttons.map (fun b =>
                  get_episodes_for_season net parseItems (b.post.getD "")
                    (b.season.getD ""))).flatten).filterMap
                      processEpisodeItem).length
              episodes := ((pg.season_buttons.map (fun b =>
                  get_episodes_for_season net parseItems (b.post.getD "")
                    (b.season.getD ""))).flatten).filterMap
                      processEpisodeItem } := by
  have hred : get_anime_info_core url_path (.ok pg) net parseItems order
      = get_anime_info_page url_path pg net parseItems order := rfl
  rw [hred]
  unfold get_anime_info_page
  rw [if_neg (by simpa [List.isEmpty_iff] using hne)]
  rw [seasonAggregate_eq_flatten _ _ _ hvalid hperm]

/-- A three-season demo detail page with all buttons valid. -/
def demoPage : DetailPage :=
  { title := some "Demo"
    ogImage := some "https://img.test/poster.jpg"
    languages := ["Hindi"]
    season_buttons :=
      [⟨some "7", some "1"⟩, ⟨some "7", some "2"⟩, ⟨some "7", some "3"⟩] }

/-- A season oracle echoing the requested season number as the body. -/
def echoNet : String → String → Except String String := fun _ s => .ok s

/-- A season oracle failing exactly on season `"2"`. -/
def failSeason2Net : String → String → Except String String :=
  fun _ s => if s = "2" then .error "timeout" else .ok s

/-- A one-item parse of a season fragment, carrying the body in its slug. -/
def demoParse : String → List EpisodeItem := fun body =>
  [{ link := some ("/episode/s" ++ body)
     num := some body
     title := some ("Ep " ++ body)
     thumb := none }]

/-- Witness for `detail_episodes_submission_order`: three seasons completed
in the order [2, 0, 1] still merge as season 1, 2, 3. -/
theorem detail_episodes_submission_order_witness :
    get_anime_info_core "naruto" (.ok demoPage) echoNet demoParse [2, 0, 1]
      = .ok { title := demoPage.title.getD "N/A"
              url := "naruto"
              image_url := pyOrDefault demoPage.ogImage "N/A"
              languages := demoPage.languages
              total_episodes := (((demoPage.season_buttons.map (fun b =>
                  get_episodes_for_season echoNet demoParse (b.post.getD "")
                    (b.season.getD ""))).flatten).filterMap
                      processEpisodeItem).length
              episodes := ((demoPage.season_buttons.map (fun b =>
                  get_episodes_for_season echoNet demoParse (b.post.getD "")
                    (b.season.getD ""))).flatten).filterMap
                      processEpisodeItem } :=
  detail_episodes_submission_order "naruto" demoPage echoNet demoParse
    [2, 0, 1] (by decide) (by decide) (by decide)

/-- C4: a fan-out task's failure is isolated: a failed per-season fetch and
a failed script scan each contribute the empty list, and the season
aggregation still succeeds, with every sibling button contributing exactly
its own task's result, merged in submission order — one task's failure
never aborts the aggregation or the request. -/
theorem fanout_failure_isolated
    (net : String → String → Except String String)
    (parseItems : String → List EpisodeItem)
    (jsnet : String → Except String String)
    (p s ju e1 e2 : String)
    (buttons : List SeasonButton) (order : List Nat)
    (hvalid : ∀ b ∈ buttons, buttonValid b = true)
    (hperm : order.Perm (List.range buttons.length)) :
    (net p s = .error e1 → get_episodes_for_season net parseItems p s = []) ∧
    (jsnet ju = .error e2 → scan_js_file jsnet ju = []) ∧
    seasonAggregate buttons
        (fun b => get_episodes_for_season net parseItems (b.post.getD "")
          (b.season.getD "")) order
      = .ok ((buttons.map (fun b => get_episodes_for_season net parseItems
          (b.post.getD "") (b.season.getD ""))).flatten) := by
  refine ⟨?_, ?_, seasonAggregate_eq_flatten _ _ _ hvalid hperm⟩
  · intro h
    unfold get_episodes_for_season
    rw [h]
  · intro h
    unfold scan_js_file
    rw [h]

/-- Witness for `fanout_failure_isolated`: season 2's fetch times out,
contributes nothing, and the three-season aggregation still returns every
sibling's own result in submission order. -/
theorem fanout_failure_isolated_witness :
    get_episodes_for_season failSeason2Net demoParse "7" "2" = [] ∧
    scan_js_file offlineNet "https://cdn.test/x.js" = [] ∧
    seasonAggregate demoPage.season_buttons
        (fun b => get_episodes_for_season failSeason2Net demoParse
          (b.post.getD "") (b.season.getD "")) [1, 2, 0]
      = .ok ((demoPage.season_buttons.map (fun b =>
          get_episodes_for_season failSeason2Net demoParse (b.post.getD "")
            (b.season.getD ""))).flatten) := by
  obtain ⟨h1, h2, h3⟩ := fanout_failure_isolated failSeason2Net demoParse
    offlineNet "7" "2" "https://cdn.test/x.js" "timeout" "offline"
    demoPage.season_buttons [1, 2, 0] (by decide) (by decide)
  exact ⟨h1 rfl, h2 rfl, h3⟩

/-- C7: a detail page fetched successfully but containing no season buttons
yields the not-found error (`404 No season buttons found`), not an empty
detail record and not a server error. -/
theorem no_season_buttons_not_found (url_path : String) (pg : DetailPage)
    (net : String → String → Except String String)
    (parseItems : String → List EpisodeItem) (order : List Nat)
    (h : pg.season_buttons = []) :
    get_anime_info_core url_path (.ok pg) net parseItems order
      = .error (.notFound "No season buttons found") := by
  have hred : get_anime_info_core url_path (.ok pg) net parseItems order
      = get_anime_info_page url_path pg net parseItems order := rfl
  rw [hred]
  unfold get_anime_info_page
  rw [h]
  rfl

/-- A detail page with no season markers. -/
def seasonlessPage : DetailPage :=
  { title := some "Movie", ogImage := none, languages := [], season_buttons := [] }

/-- Witness for `no_season_buttons_not_found` at a concrete page. -/
theorem no_season_buttons_not_found_witness :
    get_anime_info_core "movie" (.ok seasonlessPage) echoNet demoParse []
      = .error (.notFound "No season buttons found") :=
  no_season_buttons_not_found "movie" seasonlessPage echoNet demoParse [] rfl

/-- C9: in every successful detail response, `total_episodes` equals the
length of the `episodes` sequence. -/
theorem detail_total_episodes_eq_length (url_path : String)
    (page : Except String DetailPage)
    (net : String → String → Except String String)
    (parseItems : String → List EpisodeItem) (order : List Nat)
    (d : AnimeData)
    (hok : get_anime_info_core url_path page net parseItems order = .ok d) :
    d.total_episodes = d.episodes.length := by
  unfold get_anime_info_core get_anime_info_page at hok
  split at hok
  · exact absurd hok (by simp)
  · split at hok
    · exact absurd hok (by simp)
    · split at hok
      · exact absurd hok (by simp)
      · simp only [Except.ok.injEq] at hok
        subst hok
        rfl

/-- A one-season page whose single fetch fails. -/
def oneButtonPage : DetailPage :=
  { title := some "T", ogImage := none, languages := []
    season_buttons := [⟨some "7", some "1"⟩] }

/-- A season oracle on which every request fails. -/
def downSeasonNet : String → String → Except String String :=
  fun _ _ => .error "down"

/-- Witness for `detail_total_episodes_eq_length` at a concrete request. -/
theorem detail_total_episodes_eq_length_witness :
    (⟨"T", "p", "N/A", [], 0, []⟩ : AnimeData).total_episodes
      = (⟨"T", "p", "N/A", [], 0, []⟩ : AnimeData).episodes.length :=
  detail_total_episodes_eq_length "p" (.ok oneButtonPage) downSeasonNet
    demoParse [0] ⟨"T", "p", "N/A", [], 0, []⟩ rfl

/-- C10: when some season button lacking `data-post` or `data-season`
precedes (has a lower index than) a button carrying both, the enumerate
index of some submitted task necessarily falls outside `season_results`
(which is sized by the number of *submitted* tasks only), so the fan-out
raises `IndexError` and the request fails with a 500 server error instead
of degrading to the valid seasons. -/
theorem invalid_before_valid_server_error (url_path : String)
    (pg : DetailPage) (net : String → String → Except String String)
    (parseItems : String → List EpisodeItem) (order : List Nat)
    (p q : Nat) (bp bq : SeasonButton)
    (hp : pg.season_buttons[p]? = some bp) (hbp : buttonValid bp = false)
    (hq : pg.season_buttons[q]? = some bq) (hbq : buttonValid bq = true)
    (hpq : p < q)
    (hperm : order.Perm (List.range (validTasks pg.season_buttons).length)) :
    get_anime_info_core url_path (.ok pg) net parseItems order
      = .error (.serverError "list assignment index out of range") := by
  have hred : get_anime_info_core url_path (.ok pg) net parseItems order
      = get_anime_info_page url_path pg net parseItems order := rfl
  rw [hred]
  set buttons := pg.season_buttons with hbuttons
  set n := (validTasks buttons).length with hn
  obtain ⟨hqlen, _⟩ := List.getElem?_eq_some_iff.mp hq
  have hmemq : (q, bq) ∈ validTasks buttons :=
    List.mem_filter.mpr ⟨pyEnumFrom_mem_iff.mpr ⟨q, hq, by omega⟩, hbq⟩
  have hnd : ((validTasks buttons).map Prod.fst).Nodup :=
    validTasks_indices_nodup buttons
  have hpnot : ∀ b', (p, b') ∉ validTasks buttons := by
    intro b' hmem
    obtain ⟨hen, hval⟩ := List.mem_filter.mp hmem
    obtain ⟨j, hj, hpj⟩ := pyEnumFrom_mem_iff.mp hen
    have hjp : j = p := by omega
    subst hjp
    rw [hp] at hj
    injection hj with hj
    subst hj
    rw [hbp] at hval
    exact absurd hval (by decide)
  have hex : ∃ ib ∈ validTasks buttons, n ≤ ib.1 := by
    by_contra hno
    push_neg at hno
    have hqn : q < n := by
      have := hno (q, bq) hmemq
      simpa using this
    have hsub : ((validTasks buttons).map Prod.fst).toFinset
        ⊆ (Finset.range n).erase p := by
      intro i hi
      rw [List.mem_toFinset, List.mem_map] at hi
      obtain ⟨⟨i0, b0⟩, hmem0, rfl⟩ := hi
      rw [Finset.mem_erase, Finset.mem_range]
      refine ⟨?_, by simpa using hno _ hmem0⟩
      intro hip
      subst hip
      exact hpnot b0 hmem0
    have hcard1 : ((validTasks buttons).map Prod.fst).toFinset.card = n := by
      rw [List.toFinset_card_of_nodup hnd, List.length_map]
    have hcard2 : ((Finset.range n).erase p).card = n - 1 := by
      rw [Finset.card_erase_of_mem (Finset.mem_range.mpr (by omega))]
      simp
    have := Finset.card_le_card hsub
    omega
  obtain ⟨⟨istar, bstar⟩, hmemstar, hge⟩ := hex
  obtain ⟨pstar, hpstarlt, hpstar⟩ := List.getElem_of_mem hmemstar
  have hpstar? : (validTasks buttons)[pstar]? = some (istar, bstar) := by
    rw [List.getElem?_eq_getElem hpstarlt, hpstar]
  have hpstarmem : pstar ∈ order :=
    hperm.mem_iff.mpr (List.mem_range.mpr (by omega))
  unfold get_anime_info_page
  rw [if_neg (by
    simp only [List.isEmpty_iff]
    intro h0
    have hb0 : buttons = [] := hbuttons.trans h0
    rw [hb0] at hq
    simp at hq)]
  have hagg : seasonAggregate buttons
      (fun b => get_episodes_for_season net parseItems (b.post.getD "")
        (b.season.getD "")) order
      = .error "list assignment index out of range" := by
    unfold seasonAggregate
    rw [writeSeasonResults_error _ _ order _
      ⟨pstar, hpstarmem, istar, bstar, hpstar?, by simpa using hge⟩]
  rw [← hbuttons]
  rw [hagg]

/-- A detail page on which an attribute-less button precedes a valid one. -/
def badButtonPage : DetailPage :=
  { title := some "Bad", ogImage := none, languages := []
    season_buttons := [⟨none, none⟩, ⟨some "7", some "1"⟩] }

/-- Witness for `invalid_before_valid_server_error` at a concrete page:
one submitted task, whose enumerate index 1 falls outside the one-slot
result list. -/
theorem invalid_before_valid_server_error_witness :
    get_anime_info_core "bad" (.ok badButtonPage) echoNet demoParse [0]
      = .error (.serverError "list assignment index out of range") :=
  invalid_before_valid_server_error "bad" badButtonPage echoNet demoParse
    [0] 0 1 ⟨none, none⟩ ⟨some "7", some "1"⟩ (by decide) (by decide)
    (by decide) (by decide) (by decide) (by decide)
